import Mathlib

/-!
Verification of the circuit-building core of the halo2 frontend
(`halo2_common/src/plonk/circuit.rs` and
`halo2_common/src/circuit/floor_planner/v1.rs`) against its
natural-language specification.

The Rust code is shallowly embedded: machine integers become `Nat`/`Int`,
`Vec` becomes `List`, field elements are a type parameter `F`, and every
Rust `panic!`/`assert!` is modelled by an `Option`/`Except` failure.
-/

namespace Halo2

/-- A rotation: a signed integer offset applied to the current row when
querying a column (`halo2_middleware::poly::Rotation`, a wrapped `i32`). -/
structure Rotation where
  r : Int
deriving DecidableEq, Repr

/-- `Rotation::cur()`: the current row. -/
def Rotation.cur : Rotation := ⟨0⟩

/-- A selector: `Selector(pub usize, bool)`, the `bool` recording whether the
selector is "simple". -/
structure Selector where
  index : Nat
  simple : Bool
deriving DecidableEq, Repr

/-- `Selector::is_simple`. -/
def Selector.is_simple (s : Selector) : Bool := s.simple

/-- `FixedQuery`: query of a fixed column at a relative location. -/
structure FixedQuery where
  index : Option Nat
  column_index : Nat
  rotation : Rotation
deriving DecidableEq, Repr

/-- `AdviceQuery`: query of an advice column at a relative location.  The
`phase` field models the wrapped `u8` of `sealed::Phase`. -/
structure AdviceQuery where
  index : Option Nat
  column_index : Nat
  rotation : Rotation
  phase : Nat
deriving DecidableEq, Repr

/-- `InstanceQuery`: query of an instance column at a relative location. -/
structure InstanceQuery where
  index : Option Nat
  column_index : Nat
  rotation : Rotation
deriving DecidableEq, Repr

/-- `Challenge`: a challenge squeezed from the transcript after the advice
columns of its phase have been committed. -/
structure Challenge where
  index : Nat
  phase : Nat
deriving DecidableEq, Repr

/-- `halo2_middleware::circuit::Any`: the type of a column. -/
inductive Any where
  | Advice (phase : Nat)
  | Fixed
  | Instance
deriving DecidableEq, Repr

/-- `Column<Any>`: a column identified by index and type. -/
structure ColumnAny where
  index : Nat
  column_type : Any
deriving DecidableEq, Repr

/-- `Column<Advice>`: an advice column carries its phase, and equality of
advice columns compares both index and phase. -/
structure ColumnAdvice where
  index : Nat
  phase : Nat
deriving DecidableEq, Repr

/-- A `VirtualCell`: a column queried at a relative rotation inside a gate,
lookup or shuffle. -/
structure VirtualCell where
  column : ColumnAny
  rotation : Rotation
deriving DecidableEq, Repr

/-- The expression AST `Expression<F>` of `plonk/circuit.rs`. -/
inductive Expression (F : Type) where
  | Constant (scalar : F)
  | Selector (selector : Halo2.Selector)
  | Fixed (query : FixedQuery)
  | Advice (query : AdviceQuery)
  | Instance (query : InstanceQuery)
  | Challenge (challenge : Halo2.Challenge)
  | Negated (a : Expression F)
  | Sum (a : Expression F) (b : Expression F)
  | Product (a : Expression F) (b : Expression F)
  | Scaled (a : Expression F) (f : F)
deriving DecidableEq, Repr

namespace Expression

/-- `Expression::evaluate`: the generic fold over the ten variants. -/
def evaluate {F T : Type}
    (constant : F → T)
    (selector_column : Halo2.Selector → T)
    (fixed_column : FixedQuery → T)
    (advice_column : AdviceQuery → T)
    (instance_column : InstanceQuery → T)
    (challenge : Halo2.Challenge → T)
    (negated : T → T)
    (sum : T → T → T)
    (product : T → T → T)
    (scaled : T → F → T) :
    Expression F → T
  | .Constant scalar => constant scalar
  | .Selector selector => selector_column selector
  | .Fixed query => fixed_column query
  | .Advice query => advice_column query
  | .Instance query => instance_column query
  | .Challenge value => challenge value
  | .Negated a =>
      negated (a.evaluate constant selector_column fixed_column advice_column
        instance_column challenge negated sum product scaled)
  | .Sum a b =>
      sum
        (a.evaluate constant selector_column fixed_column advice_column
          instance_column challenge negated sum product scaled)
        (b.evaluate constant selector_column fixed_column advice_column
          instance_column challenge negated sum product scaled)
  | .Product a b =>
      product
        (a.evaluate constant selector_column fixed_column advice_column
          instance_column challenge negated sum product scaled)
        (b.evaluate constant selector_column fixed_column advice_column
          instance_column challenge negated sum product scaled)
  | .Scaled a f =>
      scaled
        (a.evaluate constant selector_column fixed_column advice_column
          instance_column challenge negated sum product scaled) f

/-- `Expression::degree`. -/
def degree {F : Type} : Expression F → Nat
  | .Constant _ => 0
  | .Selector _ => 1
  | .Fixed _ => 1
  | .Advice _ => 1
  | .Instance _ => 1
  | .Challenge _ => 0
  | .Negated poly => poly.degree
  | .Sum a b => max a.degree b.degree
  | .Product a b => a.degree + b.degree
  | .Scaled poly _ => poly.degree

/-- `Expression::contains_simple_selector`, defined — as in the source — via
the `evaluate` fold. -/
def contains_simple_selector {F : Type} (e : Expression F) : Bool :=
  e.evaluate (fun _ => false) (fun selector => selector.is_simple) (fun _ => false)
    (fun _ => false) (fun _ => false) (fun _ => false) (fun a => a) (fun a b => a || b)
    (fun a b => a || b) (fun a _ => a)

/-- `impl Add for Expression`: panics (here: `none`) when either operand
transitively contains a simple selector; otherwise builds a `Sum` node. -/
def add {F : Type} (lhs rhs : Expression F) : Option (Expression F) :=
  if lhs.contains_simple_selector || rhs.contains_simple_selector then none
  else some (.Sum lhs rhs)

/-- `impl Sub for Expression`: panics (here: `none`) when either operand
transitively contains a simple selector; otherwise builds `Sum(lhs, Negated rhs)`. -/
def sub {F : Type} (lhs rhs : Expression F) : Option (Expression F) :=
  if lhs.contains_simple_selector || rhs.contains_simple_selector then none
  else some (.Sum lhs (.Negated rhs))

/-- `impl Mul for Expression`: panics (here: `none`) when both operands contain
a simple selector; otherwise builds a `Product` node. -/
def mul {F : Type} (lhs rhs : Expression F) : Option (Expression F) :=
  if lhs.contains_simple_selector && rhs.contains_simple_selector then none
  else some (.Product lhs rhs)

/-- `impl Mul<F> for Expression` (scaling by a field element): always succeeds,
building a `Scaled` node. -/
def mulScalar {F : Type} (lhs : Expression F) (rhs : F) : Expression F :=
  .Scaled lhs rhs

/-- `impl Sum<Self> for Expression`: `iter.reduce(|acc, x| acc + x)` (the
panicking `+`) with `Constant(F::ZERO)` for the empty iterator. -/
def sum_iter {F : Type} [Zero F] : List (Expression F) → Option (Expression F)
  | [] => some (.Constant 0)
  | x :: xs => xs.foldlM add x

/-- `impl Product<Self> for Expression`: `iter.reduce(|acc, x| acc * x)` (the
panicking `*`) with `Constant(F::ONE)` for the empty iterator. -/
def product_iter {F : Type} [One F] : List (Expression F) → Option (Expression F)
  | [] => some (.Constant 1)
  | x :: xs => xs.foldlM mul x

end Expression

/-- The structural meaning of "transitively contains a simple selector",
stated independently of the `evaluate` fold used by the code. -/
inductive ContainsSimple {F : Type} : Expression F → Prop
  | selector (s : Selector) : s.simple = true → ContainsSimple (.Selector s)
  | negated {a : Expression F} : ContainsSimple a → ContainsSimple (.Negated a)
  | sum_left {a b : Expression F} : ContainsSimple a → ContainsSimple (.Sum a b)
  | sum_right {a b : Expression F} : ContainsSimple b → ContainsSimple (.Sum a b)
  | product_left {a b : Expression F} : ContainsSimple a → ContainsSimple (.Product a b)
  | product_right {a b : Expression F} : ContainsSimple b → ContainsSimple (.Product a b)
  | scaled {a : Expression F} {f : F} : ContainsSimple a → ContainsSimple (.Scaled a f)

/-- The `evaluate`-based boolean `contains_simple_selector` agrees with the
structural predicate `ContainsSimple`. -/
theorem contains_simple_selector_iff {F : Type} (e : Expression F) :
    e.contains_simple_selector = true ↔ ContainsSimple e := by
  induction e with
  | Constant c => simp [Expression.contains_simple_selector, Expression.evaluate]
                  intro h; cases h
  | Selector s =>
      simp [Expression.contains_simple_selector, Expression.evaluate, Selector.is_simple]
      constructor
      · intro h; exact .selector s h
      · rintro (_ | _); assumption
  | Fixed q => simp [Expression.contains_simple_selector, Expression.evaluate]
               intro h; cases h
  | Advice q => simp [Expression.contains_simple_selector, Expression.evaluate]
                intro h; cases h
  | Instance q => simp [Expression.contains_simple_selector, Expression.evaluate]
                  intro h; cases h
  | Challenge c => simp [Expression.contains_simple_selector, Expression.evaluate]
                   intro h; cases h
  | Negated a ih =>
      simp only [Expression.contains_simple_selector, Expression.evaluate] at *
      rw [ih]
      constructor
      · exact .negated
      · rintro (_ | h); assumption
  | Sum a b iha ihb =>
      simp only [Expression.contains_simple_selector, Expression.evaluate, Bool.or_eq_true] at *
      rw [iha, ihb]
      constructor
      · rintro (h | h)
        · exact .sum_left h
        · exact .sum_right h
      · intro h
        cases h with
        | sum_left h => exact Or.inl h
        | sum_right h => exact Or.inr h
  | Product a b iha ihb =>
      simp only [Expression.contains_simple_selector, Expression.evaluate, Bool.or_eq_true] at *
      rw [iha, ihb]
      constructor
      · rintro (h | h)
        · exact .product_left h
        · exact .product_right h
      · intro h
        cases h with
        | product_left h => exact Or.inl h
        | product_right h => exact Or.inr h
  | Scaled a f ih =>
      simp only [Expression.contains_simple_selector, Expression.evaluate] at *
      rw [ih]
      constructor
      · exact .scaled
      · rintro (_ | h); assumption

lemma contains_simple_selector_sum {F : Type} (a b : Expression F) :
    (Expression.Sum a b).contains_simple_selector
      = (a.contains_simple_selector || b.contains_simple_selector) := rfl

lemma contains_simple_selector_product {F : Type} (a b : Expression F) :
    (Expression.Product a b).contains_simple_selector
      = (a.contains_simple_selector || b.contains_simple_selector) := rfl

lemma foldlM_add_eq_foldl {F : Type} (l : List (Expression F)) (e : Expression F)
    (he : e.contains_simple_selector = false)
    (hl : ∀ x ∈ l, x.contains_simple_selector = false) :
    l.foldlM Expression.add e = some (l.foldl .Sum e) := by
  induction l generalizing e with
  | nil => rfl
  | cons x xs ih =>
      have hx : x.contains_simple_selector = false := hl x (by simp)
      have hstep : Expression.add e x = some (.Sum e x) := by
        simp [Expression.add, he, hx]
      have hsum : (Expression.Sum e x).contains_simple_selector = false := by
        rw [contains_simple_selector_sum, he, hx]; rfl
      rw [List.foldlM_cons, hstep]
      simpa using ih (.Sum e x) hsum (fun y hy => hl y (by simp [hy]))

lemma foldlM_mul_eq_foldl {F : Type} (l : List (Expression F)) (e : Expression F)
    (he : e.contains_simple_selector = false)
    (hl : ∀ x ∈ l, x.contains_simple_selector = false) :
    l.foldlM Expression.mul e = some (l.foldl .Product e) := by
  induction l generalizing e with
  | nil => rfl
  | cons x xs ih =>
      have hx : x.contains_simple_selector = false := hl x (by simp)
      have hstep : Expression.mul e x = some (.Product e x) := by
        simp [Expression.mul, he, hx]
      have hprod : (Expression.Product e x).contains_simple_selector = false := by
        rw [contains_simple_selector_product, he, hx]; rfl
      rw [List.foldlM_cons, hstep]
      simpa using ih (.Product e x) hprod (fun y hy => hl y (by simp [hy]))

/-- C4: for all expressions a and b over a field, `a + b` and `a - b` panic
exactly when either operand transitively contains a simple selector (otherwise
building a `Sum` node, with `a - b = Sum a (Negated b)`); `a * b` panics when
both operands contain a simple selector and builds a `Product` node when at
most one does; scaling `a` by a field scalar never panics and builds a
`Scaled` node. -/
theorem expression_arith_simple_selector_rules {F : Type} (a b : Expression F) (k : F) :
    ((ContainsSimple a ∨ ContainsSimple b) → a.add b = none) ∧
    (¬(ContainsSimple a ∨ ContainsSimple b) → a.add b = some (.Sum a b)) ∧
    ((ContainsSimple a ∨ ContainsSimple b) → a.sub b = none) ∧
    (¬(ContainsSimple a ∨ ContainsSimple b) → a.sub b = some (.Sum a (.Negated b))) ∧
    ((ContainsSimple a ∧ ContainsSimple b) → a.mul b = none) ∧
    (¬(ContainsSimple a ∧ ContainsSimple b) → a.mul b = some (.Product a b)) ∧
    (a.mulScalar k = .Scaled a k) := by
  have ha := contains_simple_selector_iff a
  have hb := contains_simple_selector_iff b
  have hfalse : ∀ (e : Expression F), ¬ ContainsSimple e →
      e.contains_simple_selector = false := by
    intro e hne
    cases he : e.contains_simple_selector
    · rfl
    · exact absurd ((contains_simple_selector_iff e).mp he) hne
  refine ⟨?_, ?_, ?_, ?_, ?_, ?_, rfl⟩
  · rintro (h | h)
    · simp [Expression.add, ha.mpr h]
    · simp [Expression.add, hb.mpr h]
  · intro h
    push_neg at h
    simp [Expression.add, hfalse a h.1, hfalse b h.2]
  · rintro (h | h)
    · simp [Expression.sub, ha.mpr h]
    · simp [Expression.sub, hb.mpr h]
  · intro h
    push_neg at h
    simp [Expression.sub, hfalse a h.1, hfalse b h.2]
  · rintro ⟨h1, h2⟩
    simp [Expression.mul, ha.mpr h1, hb.mpr h2]
  · intro h
    by_cases hca : ContainsSimple a
    · by_cases hcb : ContainsSimple b
      · exact absurd ⟨hca, hcb⟩ h
      · simp [Expression.mul, hfalse b hcb]
    · simp [Expression.mul, hfalse a hca]

/-- C4 witness: with `s` a simple selector, `s + x` panics while `s * x`
(for `x` free of simple selectors) succeeds. -/
theorem expression_arith_simple_selector_rules_witness :
    (Expression.add (.Selector ⟨0, true⟩) (.Constant (0 : Int)) = none) ∧
    (Expression.mul (.Selector ⟨0, true⟩) (.Constant (0 : Int))
      = some (.Product (.Selector ⟨0, true⟩) (.Constant 0))) := by
  constructor
  · exact (expression_arith_simple_selector_rules _ _ (0 : Int)).1
      (Or.inl (.selector _ rfl))
  · exact (expression_arith_simple_selector_rules _ _ (0 : Int)).2.2.2.2.2.1
      (by rintro ⟨-, h⟩; cases h)

/-- C5: summing an empty iterator of expressions yields `Constant 0` and
taking the product of an empty iterator yields `Constant 1`; for a non-empty
iterator (of expressions free of simple selectors, so that the folded `+`/`*`
do not panic) the result is the left-associated fold of the elements. -/
theorem iter_sum_product_spec {F : Type} [Zero F] [One F] :
    (Expression.sum_iter ([] : List (Expression F)) = some (.Constant 0)) ∧
    (Expression.product_iter ([] : List (Expression F)) = some (.Constant 1)) ∧
    (∀ (e : Expression F) (l : List (Expression F)),
      (∀ x ∈ e :: l, x.contains_simple_selector = false) →
      Expression.sum_iter (e :: l) = some (l.foldl .Sum e) ∧
      Expression.product_iter (e :: l) = some (l.foldl .Product e)) := by
  refine ⟨rfl, rfl, fun e l h => ⟨?_, ?_⟩⟩
  · exact foldlM_add_eq_foldl l e (h e (by simp)) (fun x hx => h x (by simp [hx]))
  · exact foldlM_mul_eq_foldl l e (h e (by simp)) (fun x hx => h x (by simp [hx]))

/-- C5 witness: `[Constant 1, Constant 2, Constant 3]` sums to the
left-associated tree `((1+2)+3)` and multiplies to `((1*2)*3)`. -/
theorem iter_sum_product_spec_witness :
    Expression.sum_iter [Expression.Constant (1 : Int), .Constant 2, .Constant 3]
      = some (.Sum (.Sum (.Constant 1) (.Constant 2)) (.Constant 3)) ∧
    Expression.product_iter [Expression.Constant (1 : Int), .Constant 2, .Constant 3]
      = some (.Product (.Product (.Constant 1) (.Constant 2)) (.Constant 3)) := by
  have h := iter_sum_product_spec.2.2 (Expression.Constant (1 : Int))
    [.Constant 2, .Constant 3] (by decide)
  exact ⟨h.1, h.2⟩

/-- C6: the degree of an expression: `Constant` and `Challenge` have degree 0;
queries and selectors degree 1; `Negated` and `Scaled` pass through; `Sum`
takes the max; `Product` sums. -/
theorem expression_degree_spec {F : Type} (c : F) (s : Selector) (fq : FixedQuery)
    (aq : AdviceQuery) (iq : InstanceQuery) (ch : Challenge) (a b : Expression F) (k : F) :
    (Expression.Constant c).degree = 0 ∧
    (Expression.Challenge ch : Expression F).degree = 0 ∧
    (Expression.Selector s : Expression F).degree = 1 ∧
    (Expression.Fixed fq : Expression F).degree = 1 ∧
    (Expression.Advice aq : Expression F).degree = 1 ∧
    (Expression.Instance iq : Expression F).degree = 1 ∧
    (Expression.Negated a).degree = a.degree ∧
    (Expression.Scaled a k).degree = a.degree ∧
    (Expression.Sum a b).degree = max a.degree b.degree ∧
    (Expression.Product a b).degree = a.degree + b.degree :=
  ⟨rfl, rfl, rfl, rfl, rfl, rfl, rfl, rfl, rfl, rfl⟩

namespace lookup

/-- Modelled from the spec: a lookup argument is `(name, input expression
vector, table expression vector)` (`lookup::Argument`, whose defining module is
not part of the sources here; the fields are those used by
`ConstraintSystem::lookup`/`lookup_any` and the V2 conversion). -/
structure Argument (F : Type) where
  name : String
  input_expressions : List (Expression F)
  table_expressions : List (Expression F)
deriving DecidableEq, Repr

/-- Modelled from the spec: `lookup::Argument::new` unzips the `(input, table)`
map into the input and table expression vectors. -/
def Argument.new {F : Type} (name : String) (table_map : List (Expression F × Expression F)) :
    Argument F :=
  { name, input_expressions := table_map.map Prod.fst,
    table_expressions := table_map.map Prod.snd }

end lookup

namespace shuffle

/-- Modelled from the spec: a shuffle argument is `(name, input expression
vector, shuffle expression vector)` (`shuffle::Argument`, whose defining module
is not part of the sources here). -/
structure Argument (F : Type) where
  name : String
  input_expressions : List (Expression F)
  shuffle_expressions : List (Expression F)
deriving DecidableEq, Repr

/-- Modelled from the spec: `shuffle::Argument::new` unzips the
`(input, shuffle)` map into the two expression vectors. -/
def Argument.new {F : Type} (name : String) (shuffle_map : List (Expression F × Expression F)) :
    Argument F :=
  { name, input_expressions := shuffle_map.map Prod.fst,
    shuffle_expressions := shuffle_map.map Prod.snd }

end shuffle

/-- A `Gate`: named bundle of constraint polynomials together with the
selectors and virtual cells queried while building it. -/
structure Gate (F : Type) where
  name : String
  constraint_names : List String
  polys : List (Expression F)
  queried_selectors : List Selector
  queried_cells : List VirtualCell
deriving DecidableEq, Repr

/-- The `ConstraintSystem<F>` registry.  `Column<Fixed>`/`Column<Instance>`
are represented by their index (their type component carries no data);
`Column<Advice>` carries its phase.  The debug-only
`general_column_annotations` map is omitted. -/
structure ConstraintSystem (F : Type) where
  num_fixed_columns : Nat
  num_advice_columns : Nat
  num_instance_columns : Nat
  num_selectors : Nat
  num_challenges : Nat
  unblinded_advice_columns : List Nat
  advice_column_phase : List Nat
  challenge_phase : List Nat
  selector_map : List Nat
  gates : List (Gate F)
  advice_queries : List (ColumnAdvice × Rotation)
  num_advice_queries : List Nat
  instance_queries : List (Nat × Rotation)
  fixed_queries : List (Nat × Rotation)
  permutation : List ColumnAny
  lookups : List (lookup.Argument F)
  shuffles : List (shuffle.Argument F)
  constants : List Nat
  minimum_degree : Option Nat
deriving DecidableEq, Repr

/-- `impl Default for ConstraintSystem`: the empty system. -/
def ConstraintSystem.empty (F : Type) : ConstraintSystem F :=
  { num_fixed_columns := 0, num_advice_columns := 0, num_instance_columns := 0,
    num_selectors := 0, num_challenges := 0, unblinded_advice_columns := [],
    advice_column_phase := [], challenge_phase := [], selector_map := [],
    gates := [], advice_queries := [], num_advice_queries := [],
    instance_queries := [], fixed_queries := [], permutation := [],
    lookups := [], shuffles := [], constants := [], minimum_degree := none }

/-- The linear search `for (index, query) in queries.iter().enumerate()
{ if query == &(column, at) { return index } }` shared by the three
`query_*_index` methods. -/
def find_query_index {α : Type} [DecidableEq α] : List α → α → Option Nat
  | [], _ => none
  | x :: xs, q => if x = q then some 0 else (find_query_index xs q).map (· + 1)

namespace ConstraintSystem

variable {F : Type}

/-- `ConstraintSystem::query_fixed_index`: return the existing index of
`(column, at)` if present, otherwise append the pair and return its index. -/
def query_fixed_index (cs : ConstraintSystem F) (column : Nat) (at_ : Rotation) :
    ConstraintSystem F × Nat :=
  match find_query_index cs.fixed_queries (column, at_) with
  | some index => (cs, index)
  | none =>
      ({ cs with fixed_queries := cs.fixed_queries ++ [(column, at_)] },
       cs.fixed_queries.length)

/-- `ConstraintSystem::query_advice_index`: as for fixed queries, but a newly
interned pair also bumps `num_advice_queries[column.index]`.  The source
indexes `num_advice_queries` unchecked (a panic when out of range), modelled
here by `none`. -/
def query_advice_index (cs : ConstraintSystem F) (column : ColumnAdvice) (at_ : Rotation) :
    Option (ConstraintSystem F × Nat) :=
  match find_query_index cs.advice_queries (column, at_) with
  | some index => some (cs, index)
  | none =>
      if column.index < cs.num_advice_queries.length then
        some ({ cs with
                advice_queries := cs.advice_queries ++ [(column, at_)],
                num_advice_queries := cs.num_advice_queries.set column.index
                  (cs.num_advice_queries.getD column.index 0 + 1) },
              cs.advice_queries.length)
      else none

/-- `ConstraintSystem::query_instance_index`. -/
def query_instance_index (cs : ConstraintSystem F) (column : Nat) (at_ : Rotation) :
    ConstraintSystem F × Nat :=
  match find_query_index cs.instance_queries (column, at_) with
  | some index => (cs, index)
  | none =>
      ({ cs with instance_queries := cs.instance_queries ++ [(column, at_)] },
       cs.instance_queries.length)

/-- `ConstraintSystem::fixed_column`: allocate a fresh fixed column. -/
def fixed_column (cs : ConstraintSystem F) : ConstraintSystem F × Nat :=
  ({ cs with num_fixed_columns := cs.num_fixed_columns + 1 }, cs.num_fixed_columns)

end ConstraintSystem

/-- `Iterator::max` over a list of naturals (`None` on an empty list). -/
def iterMax : List Nat → Option Nat
  | [] => none
  | x :: xs =>
      some (match iterMax xs with
            | none => x
            | some m => max x m)

namespace ConstraintSystem

variable {F : Type}

/-- `ConstraintSystem::blinding_factors`:
`max(3, num_advice_queries.iter().max().unwrap_or(&1)) + 1 + 1`. -/
def blinding_factors (cs : ConstraintSystem F) : Nat :=
  let factors := (iterMax cs.num_advice_queries).getD 1
  let factors := max 3 factors
  let factors := factors + 1
  factors + 1

/-- `ConstraintSystem::minimum_rows`: `blinding_factors() + 1 + 1 + 1`. -/
def minimum_rows (cs : ConstraintSystem F) : Nat :=
  cs.blinding_factors + 1 + 1 + 1

end ConstraintSystem

lemma iterMax_cons (x : Nat) (xs : List Nat) :
    iterMax (x :: xs) = some ((x :: xs).foldr max 0) := by
  induction xs generalizing x with
  | nil => simp [iterMax]
  | cons y ys ih =>
      show some (match iterMax (y :: ys) with | none => x | some m => max x m)
        = some ((x :: y :: ys).foldr max 0)
      rw [ih y]
      rfl

/-- C7: `blinding_factors()` equals `max(3, max advice distinct-query count)
+ 1 + 1` (hence is at least 5, also with no advice columns), and
`minimum_rows()` equals `blinding_factors() + 3`. -/
theorem blinding_factors_minimum_rows_spec {F : Type} (cs : ConstraintSystem F) :
    cs.blinding_factors = max 3 (cs.num_advice_queries.foldr max 0) + 1 + 1 ∧
    5 ≤ cs.blinding_factors ∧
    cs.minimum_rows = cs.blinding_factors + 3 := by
  have key : cs.blinding_factors = max 3 (cs.num_advice_queries.foldr max 0) + 1 + 1 := by
    cases h : cs.num_advice_queries with
    | nil => simp [ConstraintSystem.blinding_factors, h, iterMax]
    | cons x xs => simp [ConstraintSystem.blinding_factors, h, iterMax_cons]
  refine ⟨key, ?_, rfl⟩
  rw [key]
  have h3 : 3 ≤ max 3 (cs.num_advice_queries.foldr max 0) := le_max_left _ _
  omega

lemma find_query_index_eq_none {α : Type} [DecidableEq α] (l : List α) (q : α) :
    find_query_index l q = none ↔ q ∉ l := by
  induction l with
  | nil => simp [find_query_index]
  | cons x xs ih =>
      by_cases hx : x = q
      · subst hx; simp [find_query_index]
      · simp [find_query_index, hx, Option.map_eq_none', ih, Ne.symm hx]

lemma find_query_index_eq_some {α : Type} [DecidableEq α] (l : List α) (q : α) (i : Nat)
    (h : find_query_index l q = some i) : l.get? i = some q := by
  induction l generalizing i with
  | nil => simp [find_query_index] at h
  | cons x xs ih =>
      by_cases hx : x = q
      · subst hx
        simp [find_query_index] at h
        subst h
        rfl
      · simp only [find_query_index, if_neg hx, Option.map_eq_some'] at h
        obtain ⟨j, hj, rfl⟩ := h
        simpa using ih j hj

lemma getD_set_self (l : List Nat) (i : Nat) (h : i < l.length) (v : Nat) :
    (l.set i v).getD i 0 = v := by
  induction l generalizing i with
  | nil => simp at h
  | cons x xs ih =>
      cases i with
      | zero => rfl
      | succ j => exact ih j (by simpa using h)

lemma getD_set_ne (l : List Nat) (i j : Nat) (h : i ≠ j) (v : Nat) :
    (l.set i v).getD j 0 = l.getD j 0 := by
  induction l generalizing i j with
  | nil => rfl
  | cons x xs ih =>
      cases i with
      | zero =>
          cases j with
          | zero => exact absurd rfl h
          | succ k => rfl
      | succ i' =>
          cases j with
          | zero => rfl
          | succ k => exact ih i' k (by omega)

/-- The number of entries of an advice query list that live in advice column
`c` (with `advice_queries` kept duplicate-free this is the number of distinct
`(column, rotation)` pairs on column `c`). -/
def advice_queries_count (l : List (ColumnAdvice × Rotation)) (c : Nat) : Nat :=
  (l.filter (fun q => q.1.index == c)).length

lemma advice_queries_count_append (l : List (ColumnAdvice × Rotation))
    (p : ColumnAdvice × Rotation) (c : Nat) :
    advice_queries_count (l ++ [p]) c
      = advice_queries_count l c + (if p.1.index == c then 1 else 0) := by
  simp only [advice_queries_count, List.filter_append, List.length_append]
  cases h : (p.1.index == c) <;> simp [List.filter, h]

/-- The per-column distinct-query-count invariant of a constraint system:
`advice_queries` holds no duplicate `(column, rotation)` pair, and every entry
of `num_advice_queries` counts the pairs of its column. -/
def ConstraintSystem.advice_count_inv {F : Type} (cs : ConstraintSystem F) : Prop :=
  cs.advice_queries.Nodup ∧
  ∀ c, c < cs.num_advice_queries.length →
    cs.num_advice_queries.getD c 0 = advice_queries_count cs.advice_queries c

/-- C8: interning a `(column, rotation)` pair already present in the query
list returns its existing index and leaves the system unchanged; an absent
pair is appended and its new index returned; and `query_advice_index`
preserves the invariant that `num_advice_queries[c]` counts the distinct
advice query pairs on column `c`. -/
theorem query_index_interning_spec {F : Type} (cs : ConstraintSystem F)
    (colF colI : Nat) (colA : ColumnAdvice) (at_ : Rotation) :
    ((colF, at_) ∈ cs.fixed_queries →
      (cs.query_fixed_index colF at_).1 = cs ∧
      cs.fixed_queries.get? (cs.query_fixed_index colF at_).2 = some (colF, at_)) ∧
    ((colF, at_) ∉ cs.fixed_queries →
      cs.query_fixed_index colF at_ =
        ({ cs with fixed_queries := cs.fixed_queries ++ [(colF, at_)] },
         cs.fixed_queries.length)) ∧
    ((colA, at_) ∈ cs.advice_queries →
      ∃ i, cs.query_advice_index colA at_ = some (cs, i) ∧
        cs.advice_queries.get? i = some (colA, at_)) ∧
    ((colA, at_) ∉ cs.advice_queries → colA.index < cs.num_advice_queries.length →
      cs.query_advice_index colA at_ = some
        ({ cs with advice_queries := cs.advice_queries ++ [(colA, at_)],
                   num_advice_queries := cs.num_advice_queries.set colA.index
                     (cs.num_advice_queries.getD colA.index 0 + 1) },
         cs.advice_queries.length)) ∧
    ((colI, at_) ∈ cs.instance_queries →
      (cs.query_instance_index colI at_).1 = cs ∧
      cs.instance_queries.get? (cs.query_instance_index colI at_).2 = some (colI, at_)) ∧
    ((colI, at_) ∉ cs.instance_queries →
      cs.query_instance_index colI at_ =
        ({ cs with instance_queries := cs.instance_queries ++ [(colI, at_)] },
         cs.instance_queries.length)) ∧
    (∀ cs' i, cs.advice_count_inv →
      cs.query_advice_index colA at_ = some (cs', i) → cs'.advice_count_inv) := by
  refine ⟨?_, ?_, ?_, ?_, ?_, ?_, ?_⟩
  · intro hmem
    cases hfind : find_query_index cs.fixed_queries (colF, at_) with
    | none => exact absurd ((find_query_index_eq_none _ _).mp hfind) (by simpa using hmem)
    | some i =>
        refine ⟨by simp [ConstraintSystem.query_fixed_index, hfind], ?_⟩
        simpa [ConstraintSystem.query_fixed_index, hfind] using
          find_query_index_eq_some _ _ _ hfind
  · intro hmem
    have hfind : find_query_index cs.fixed_queries (colF, at_) = none :=
      (find_query_index_eq_none _ _).mpr hmem
    simp [ConstraintSystem.query_fixed_index, hfind]
  · intro hmem
    cases hfind : find_query_index cs.advice_queries (colA, at_) with
    | none => exact absurd ((find_query_index_eq_none _ _).mp hfind) (by simpa using hmem)
    | some i =>
        exact ⟨i, by simp [ConstraintSystem.query_advice_index, hfind],
          find_query_index_eq_some _ _ _ hfind⟩
  · intro hmem hlt
    have hfind : find_query_index cs.advice_queries (colA, at_) = none :=
      (find_query_index_eq_none _ _).mpr hmem
    simp [ConstraintSystem.query_advice_index, hfind, hlt]
  · intro hmem
    cases hfind : find_query_index cs.instance_queries (colI, at_) with
    | none => exact absurd ((find_query_index_eq_none _ _).mp hfind) (by simpa using hmem)
    | some i =>
        refine ⟨by simp [ConstraintSystem.query_instance_index, hfind], ?_⟩
        simpa [ConstraintSystem.query_instance_index, hfind] using
          find_query_index_eq_some _ _ _ hfind
  · intro hmem
    have hfind : find_query_index cs.instance_queries (colI, at_) = none :=
      (find_query_index_eq_none _ _).mpr hmem
    simp [ConstraintSystem.query_instance_index, hfind]
  · rintro cs' i ⟨hnodup, hcount⟩ heq
    cases hfind : find_query_index cs.advice_queries (colA, at_) with
    | some j =>
        have : cs' = cs := by
          simp [ConstraintSystem.query_advice_index, hfind] at heq
          exact heq.1.symm
        subst this
        exact ⟨hnodup, hcount⟩
    | none =>
        have hmem : (colA, at_) ∉ cs.advice_queries :=
          (find_query_index_eq_none _ _).mp hfind
        by_cases hlt : colA.index < cs.num_advice_queries.length
        · simp only [ConstraintSystem.query_advice_index, hfind, if_pos hlt,
            Option.some.injEq, Prod.mk.injEq] at heq
          obtain ⟨hcs', -⟩ := heq
          subst hcs'
          constructor
          · have hpair : cs.advice_queries.Nodup ∧ (colA, at_) ∉ cs.advice_queries :=
              ⟨hnodup, hmem⟩
            simpa [List.nodup_append] using hpair
          · intro c hc
            simp only [List.length_set] at hc
            by_cases hceq : c = colA.index
            · subst hceq
              rw [getD_set_self _ _ hc, advice_queries_count_append,
                hcount colA.index hc]
              simp
            · have hbeq : (colA.index == c) = false := by
                simp [hceq]
                omega
              rw [getD_set_ne _ _ _ (fun h => hceq h.symm),
                advice_queries_count_append, hbeq]
              simpa using hcount c hc
        · simp [ConstraintSystem.query_advice_index, hfind, hlt] at heq

/-- A small concrete constraint system used to exercise the query-interning
operations: one advice column with one interned query, one fixed and one
instance query already present. -/
def csQW : ConstraintSystem Int :=
  { ConstraintSystem.empty Int with
      num_fixed_columns := 2, num_advice_columns := 1, num_instance_columns := 2,
      advice_queries := [(⟨0, 0⟩, Rotation.cur)],
      num_advice_queries := [1],
      fixed_queries := [(1, Rotation.cur)],
      instance_queries := [(1, Rotation.cur)] }

/-- `csQW` after interning the fresh advice query `(column 0 phase 1, cur)`. -/
def csQWX : ConstraintSystem Int :=
  { csQW with
      advice_queries := [(⟨0, 0⟩, Rotation.cur), (⟨0, 1⟩, Rotation.cur)],
      num_advice_queries := [2] }

/-- C8 witness: on `csQW`, re-interning the present fixed query returns the
unchanged system, interning an absent fixed query returns the fresh index 1,
interning the present advice query succeeds, and the distinct-query counting
invariant holds after interning a fresh advice query. -/
theorem query_index_interning_spec_witness :
    ((csQW.query_fixed_index 1 Rotation.cur).1 = csQW) ∧
    ((csQW.query_fixed_index 0 Rotation.cur).2 = 1) ∧
    ((csQW.query_advice_index ⟨0, 0⟩ Rotation.cur).isSome = true) ∧
    csQWX.advice_count_inv := by
  refine ⟨?_, ?_, ?_, ?_⟩
  · exact ((query_index_interning_spec csQW 1 0 ⟨0, 0⟩ Rotation.cur).1 (by decide)).1
  · have h := (query_index_interning_spec csQW 0 0 ⟨0, 0⟩ Rotation.cur).2.1 (by decide)
    rw [h]
    rfl
  · obtain ⟨i, hq, -⟩ :=
      (query_index_interning_spec csQW 0 0 ⟨0, 0⟩ Rotation.cur).2.2.1 (by decide)
    simp [hq]
  · have hinv : csQW.advice_count_inv := ⟨by decide, by decide⟩
    exact (query_index_interning_spec csQW 0 0 ⟨0, 1⟩ Rotation.cur).2.2.2.2.2.2
      csQWX 1 hinv (by decide)

/-- The `VirtualCells` wrapper around a mutable `ConstraintSystem`, recording
the selectors and virtual cells queried so far. -/
structure VirtualCells (F : Type) where
  meta : ConstraintSystem F
  queried_selectors : List Selector
  queried_cells : List VirtualCell
deriving DecidableEq, Repr

/-- `VirtualCells::new`. -/
def VirtualCells.new {F : Type} (meta : ConstraintSystem F) : VirtualCells F :=
  { meta, queried_selectors := [], queried_cells := [] }

/-- `VirtualCells::query_fixed`: record the virtual cell and return an indexed
fixed-query expression. -/
def VirtualCells.query_fixed {F : Type} (cells : VirtualCells F) (column : Nat)
    (at_ : Rotation) : VirtualCells F × Expression F :=
  let cells := { cells with
    queried_cells := cells.queried_cells ++
      [({ column := ⟨column, .Fixed⟩, rotation := at_ } : VirtualCell)] }
  let p := cells.meta.query_fixed_index column at_
  ({ cells with meta := p.1 },
   .Fixed { index := some p.2, column_index := column, rotation := at_ })

/-- `Expression::query_cells`: the side-effecting walk that interns every
un-indexed query leaf of the expression, filling in its `index` field.  The
unchecked indexing of `num_advice_queries` inside `query_advice_index` is the
only failure (`none`) case. -/
def Expression.query_cells {F : Type} :
    Expression F → VirtualCells F → Option (Expression F × VirtualCells F)
  | .Constant c, cells => some (.Constant c, cells)
  | .Selector selector, cells =>
      if selector ∈ cells.queried_selectors then some (.Selector selector, cells)
      else some (.Selector selector,
        { cells with queried_selectors := cells.queried_selectors ++ [selector] })
  | .Fixed query, cells =>
      match query.index with
      | some _ => some (.Fixed query, cells)
      | none =>
          let cells := { cells with queried_cells := cells.queried_cells ++
            [({ column := ⟨query.column_index, .Fixed⟩,
                rotation := query.rotation } : VirtualCell)] }
          let p := cells.meta.query_fixed_index query.column_index query.rotation
          some (.Fixed { query with index := some p.2 }, { cells with meta := p.1 })
  | .Advice query, cells =>
      match query.index with
      | some _ => some (.Advice query, cells)
      | none =>
          let cells := { cells with queried_cells := cells.queried_cells ++
            [({ column := ⟨query.column_index, .Advice query.phase⟩,
                rotation := query.rotation } : VirtualCell)] }
          match cells.meta.query_advice_index ⟨query.column_index, query.phase⟩
              query.rotation with
          | none => none
          | some (meta, idx) =>
              some (.Advice { query with index := some idx }, { cells with meta })
  | .Instance query, cells =>
      match query.index with
      | some _ => some (.Instance query, cells)
      | none =>
          let cells := { cells with queried_cells := cells.queried_cells ++
            [({ column := ⟨query.column_index, .Instance⟩,
                rotation := query.rotation } : VirtualCell)] }
          let p := cells.meta.query_instance_index query.column_index query.rotation
          some (.Instance { query with index := some p.2 }, { cells with meta := p.1 })
  | .Challenge c, cells => some (.Challenge c, cells)
  | .Negated a, cells =>
      match a.query_cells cells with
      | none => none
      | some (a', cells) => some (.Negated a', cells)
  | .Sum a b, cells =>
      match a.query_cells cells with
      | none => none
      | some (a', cells) =>
          match b.query_cells cells with
          | none => none
          | some (b', cells) => some (.Sum a' b', cells)
  | .Product a b, cells =>
      match a.query_cells cells with
      | none => none
      | some (a', cells) =>
          match b.query_cells cells with
          | none => none
          | some (b', cells) => some (.Product a' b', cells)
  | .Scaled a f, cells =>
      match a.query_cells cells with
      | none => none
      | some (a', cells) => some (.Scaled a' f, cells)

/-- The per-pair body of `ConstraintSystem::lookup`: reject inputs containing
a simple selector (panic, here `none`), query the table's backing fixed column
at the current rotation, and intern the query leaves of both expressions. -/
def lookup_map_pairs {F : Type} :
    List (Expression F × Nat) → VirtualCells F →
    Option (VirtualCells F × List (Expression F × Expression F))
  | [], cells => some (cells, [])
  | (input, table) :: rest, cells =>
      if input.contains_simple_selector then none
      else
        let p := cells.query_fixed table Rotation.cur
        match input.query_cells p.1 with
        | none => none
        | some (input, cells) =>
            match p.2.query_cells cells with
            | none => none
            | some (tableExpr, cells) =>
                match lookup_map_pairs rest cells with
                | none => none
                | some (cells, ps) => some (cells, (input, tableExpr) :: ps)

/-- The per-pair body of `ConstraintSystem::lookup_any`: both the input and
the table expression are rejected if they contain a simple selector. -/
def lookup_any_map_pairs {F : Type} :
    List (Expression F × Expression F) → VirtualCells F →
    Option (VirtualCells F × List (Expression F × Expression F))
  | [], cells => some (cells, [])
  | (input, table) :: rest, cells =>
      if input.contains_simple_selector then none
      else if table.contains_simple_selector then none
      else
        match input.query_cells cells with
        | none => none
        | some (input, cells) =>
            match table.query_cells cells with
            | none => none
            | some (table, cells) =>
                match lookup_any_map_pairs rest cells with
                | none => none
                | some (cells, ps) => some (cells, (input, table) :: ps)

/-- The per-pair body of `ConstraintSystem::shuffle`: no simple-selector
check is performed; the query leaves are interned and the pair is kept. -/
def shuffle_map_pairs {F : Type} :
    List (Expression F × Expression F) → VirtualCells F →
    Option (VirtualCells F × List (Expression F × Expression F))
  | [], cells => some (cells, [])
  | (input, table) :: rest, cells =>
      match input.query_cells cells with
      | none => none
      | some (input, cells) =>
          match table.query_cells cells with
          | none => none
          | some (table, cells) =>
              match shuffle_map_pairs rest cells with
              | none => none
              | some (cells, ps) => some (cells, (input, table) :: ps)

namespace ConstraintSystem

variable {F : Type}

/-- `ConstraintSystem::lookup`: map the table map through the simple-selector
check and query interning, then push a new lookup argument, returning its
index. -/
def lookup (cs : ConstraintSystem F) (name : String)
    (table_map : List (Expression F × Nat)) : Option (ConstraintSystem F × Nat) :=
  match lookup_map_pairs table_map (VirtualCells.new cs) with
  | none => none
  | some (cells, tm) =>
      some ({ cells.meta with
                lookups := cells.meta.lookups ++ [lookup.Argument.new name tm] },
            cells.meta.lookups.length)

/-- `ConstraintSystem::lookup_any`. -/
def lookup_any (cs : ConstraintSystem F) (name : String)
    (table_map : List (Expression F × Expression F)) :
    Option (ConstraintSystem F × Nat) :=
  match lookup_any_map_pairs table_map (VirtualCells.new cs) with
  | none => none
  | some (cells, tm) =>
      some ({ cells.meta with
                lookups := cells.meta.lookups ++ [lookup.Argument.new name tm] },
            cells.meta.lookups.length)

/-- `ConstraintSystem::shuffle`. -/
def shuffle (cs : ConstraintSystem F) (name : String)
    (shuffle_map : List (Expression F × Expression F)) :
    Option (ConstraintSystem F × Nat) :=
  match shuffle_map_pairs shuffle_map (VirtualCells.new cs) with
  | none => none
  | some (cells, sm) =>
      some ({ cells.meta with
                shuffles := cells.meta.shuffles ++ [shuffle.Argument.new name sm] },
            cells.meta.shuffles.length)

end ConstraintSystem

/-- One public lookup/shuffle-building operation on a constraint system (the
closure arguments of the source are abstracted by the lists they return). -/
inductive CsOp (F : Type) where
  | lookupOp (name : String) (table_map : List (Expression F × Nat))
  | lookupAnyOp (name : String) (table_map : List (Expression F × Expression F))
  | shuffleOp (name : String) (shuffle_map : List (Expression F × Expression F))

/-- Apply one operation, dropping the returned argument index. -/
def applyCsOp {F : Type} (cs : ConstraintSystem F) : CsOp F → Option (ConstraintSystem F)
  | .lookupOp n m => (cs.lookup n m).map Prod.fst
  | .lookupAnyOp n m => (cs.lookup_any n m).map Prod.fst
  | .shuffleOp n m => (cs.shuffle n m).map Prod.fst

/-- Run a sequence of operations; a panic in any of them aborts the run. -/
def runCsOps {F : Type} (cs : ConstraintSystem F) : List (CsOp F) → Option (ConstraintSystem F)
  | [] => some cs
  | op :: ops =>
      match applyCsOp cs op with
      | none => none
      | some cs' => runCsOps cs' ops

/-- Whether every expression stored in a lookup argument is free of simple
selectors. -/
def lookup.Argument.simple_free {F : Type} (l : lookup.Argument F) : Bool :=
  l.input_expressions.all (fun e => !e.contains_simple_selector) &&
  l.table_expressions.all (fun e => !e.contains_simple_selector)

/-- Whether every expression stored in a shuffle argument is free of simple
selectors. -/
def shuffle.Argument.simple_free {F : Type} (s : shuffle.Argument F) : Bool :=
  s.input_expressions.all (fun e => !e.contains_simple_selector) &&
  s.shuffle_expressions.all (fun e => !e.contains_simple_selector)

/-- Whether every expression of every stored lookup argument is free of
simple selectors. -/
def ConstraintSystem.lookups_simple_free {F : Type} (cs : ConstraintSystem F) : Bool :=
  cs.lookups.all lookup.Argument.simple_free

/-- Whether every expression of every stored shuffle argument is free of
simple selectors. -/
def ConstraintSystem.shuffles_simple_free {F : Type} (cs : ConstraintSystem F) : Bool :=
  cs.shuffles.all shuffle.Argument.simple_free

lemma query_fixed_index_frame {F : Type} (cs : ConstraintSystem F) (c : Nat) (at_ : Rotation) :
    (cs.query_fixed_index c at_).1.lookups = cs.lookups ∧
    (cs.query_fixed_index c at_).1.shuffles = cs.shuffles := by
  unfold ConstraintSystem.query_fixed_index
  cases find_query_index cs.fixed_queries (c, at_) <;> simp

lemma query_instance_index_frame {F : Type} (cs : ConstraintSystem F) (c : Nat)
    (at_ : Rotation) :
    (cs.query_instance_index c at_).1.lookups = cs.lookups ∧
    (cs.query_instance_index c at_).1.shuffles = cs.shuffles := by
  unfold ConstraintSystem.query_instance_index
  cases find_query_index cs.instance_queries (c, at_) <;> simp

lemma query_advice_index_frame {F : Type} (cs cs' : ConstraintSystem F) (col : ColumnAdvice)
    (at_ : Rotation) (i : Nat) (h : cs.query_advice_index col at_ = some (cs', i)) :
    cs'.lookups = cs.lookups ∧ cs'.shuffles = cs.shuffles := by
  unfold ConstraintSystem.query_advice_index at h
  cases hf : find_query_index cs.advice_queries (col, at_) with
  | some j =>
      rw [hf] at h
      simp only [Option.some.injEq, Prod.mk.injEq] at h
      obtain ⟨rfl, -⟩ := h
      exact ⟨rfl, rfl⟩
  | none =>
      rw [hf] at h
      by_cases hlt : col.index < cs.num_advice_queries.length
      · simp only [if_pos hlt, Option.some.injEq, Prod.mk.injEq] at h
        obtain ⟨rfl, -⟩ := h
        exact ⟨rfl, rfl⟩
      · simp [if_neg hlt] at h

lemma query_cells_preserves {F : Type} :
    ∀ (e : Expression F) (cells : VirtualCells F) (e' : Expression F)
      (cells' : VirtualCells F), e.query_cells cells = some (e', cells') →
      e'.contains_simple_selector = e.contains_simple_selector ∧
      cells'.meta.lookups = cells.meta.lookups ∧
      cells'.meta.shuffles = cells.meta.shuffles := by
  intro e
  induction e with
  | Constant c =>
      intro cells e' cells' h
      simp only [Expression.query_cells, Option.some.injEq, Prod.mk.injEq] at h
      obtain ⟨rfl, rfl⟩ := h
      exact ⟨rfl, rfl, rfl⟩
  | Selector s =>
      intro cells e' cells' h
      simp only [Expression.query_cells] at h
      split at h <;>
        (simp only [Option.some.injEq, Prod.mk.injEq] at h
         obtain ⟨rfl, rfl⟩ := h
         exact ⟨rfl, rfl, rfl⟩)
  | Fixed q =>
      intro cells e' cells' h
      simp only [Expression.query_cells] at h
      split at h
      · simp only [Option.some.injEq, Prod.mk.injEq] at h
        obtain ⟨rfl, rfl⟩ := h
        exact ⟨rfl, rfl, rfl⟩
      · simp only [Option.some.injEq, Prod.mk.injEq] at h
        obtain ⟨rfl, rfl⟩ := h
        exact ⟨rfl, (query_fixed_index_frame _ _ _).1, (query_fixed_index_frame _ _ _).2⟩
  | Advice q =>
      intro cells e' cells' h
      simp only [Expression.query_cells] at h
      split at h
      · simp only [Option.some.injEq, Prod.mk.injEq] at h
        obtain ⟨rfl, rfl⟩ := h
        exact ⟨rfl, rfl, rfl⟩
      · split at h
        · exact absurd h (by simp)
        · rename_i meta idx heq
          simp only [Option.some.injEq, Prod.mk.injEq] at h
          obtain ⟨rfl, rfl⟩ := h
          have := query_advice_index_frame _ _ _ _ _ heq
          exact ⟨rfl, this.1, this.2⟩
  | Instance q =>
      intro cells e' cells' h
      simp only [Expression.query_cells] at h
      split at h
      · simp only [Option.some.injEq, Prod.mk.injEq] at h
        obtain ⟨rfl, rfl⟩ := h
        exact ⟨rfl, rfl, rfl⟩
      · simp only [Option.some.injEq, Prod.mk.injEq] at h
        obtain ⟨rfl, rfl⟩ := h
        exact ⟨rfl, (query_instance_index_frame _ _ _).1,
          (query_instance_index_frame _ _ _).2⟩
  | Challenge c =>
      intro cells e' cells' h
      simp only [Expression.query_cells, Option.some.injEq, Prod.mk.injEq] at h
      obtain ⟨rfl, rfl⟩ := h
      exact ⟨rfl, rfl, rfl⟩
  | Negated a ih =>
      intro cells e' cells' h
      simp only [Expression.query_cells] at h
      split at h
      · exact absurd h (by simp)
      · rename_i a' cells₁ heq
        simp only [Option.some.injEq, Prod.mk.injEq] at h
        obtain ⟨rfl, rfl⟩ := h
        have ha := ih _ _ _ heq
        exact ⟨ha.1, ha.2.1, ha.2.2⟩
  | Sum a b iha ihb =>
      intro cells e' cells' h
      simp only [Expression.query_cells] at h
      split at h
      · exact absurd h (by simp)
      · rename_i a' cells₁ heqa
        split at h
        · exact absurd h (by simp)
        · rename_i b' cells₂ heqb
          simp only [Option.some.injEq, Prod.mk.injEq] at h
          obtain ⟨rfl, rfl⟩ := h
          have ha := iha _ _ _ heqa
          have hb := ihb _ _ _ heqb
          refine ⟨?_, hb.2.1.trans ha.2.1, hb.2.2.trans ha.2.2⟩
          rw [contains_simple_selector_sum, contains_simple_selector_sum, ha.1, hb.1]
  | Product a b iha ihb =>
      intro cells e' cells' h
      simp only [Expression.query_cells] at h
      split at h
      · exact absurd h (by simp)
      · rename_i a' cells₁ heqa
        split at h
        · exact absurd h (by simp)
        · rename_i b' cells₂ heqb
          simp only [Option.some.injEq, Prod.mk.injEq] at h
          obtain ⟨rfl, rfl⟩ := h
          have ha := iha _ _ _ heqa
          have hb := ihb _ _ _ heqb
          refine ⟨?_, hb.2.1.trans ha.2.1, hb.2.2.trans ha.2.2⟩
          rw [contains_simple_selector_product, contains_simple_selector_product, ha.1, hb.1]
  | Scaled a f ih =>
      intro cells e' cells' h
      simp only [Expression.query_cells] at h
      split at h
      · exact absurd h (by simp)
      · rename_i a' cells₁ heq
        simp only [Option.some.injEq, Prod.mk.injEq] at h
        obtain ⟨rfl, rfl⟩ := h
        have ha := ih _ _ _ heq
        exact ⟨ha.1, ha.2.1, ha.2.2⟩

lemma vc_query_fixed_spec {F : Type} (cells : VirtualCells F) (col : Nat) (at_ : Rotation) :
    (cells.query_fixed col at_).1.meta.lookups = cells.meta.lookups ∧
    (cells.query_fixed col at_).1.meta.shuffles = cells.meta.shuffles ∧
    (cells.query_fixed col at_).2.contains_simple_selector = false := by
  unfold VirtualCells.query_fixed
  exact ⟨(query_fixed_index_frame _ _ _).1, (query_fixed_index_frame _ _ _).2, rfl⟩

lemma lookup_map_pairs_spec {F : Type} :
    ∀ (tm : List (Expression F × Nat)) (cells cells' : VirtualCells F)
      (ps : List (Expression F × Expression F)),
      lookup_map_pairs tm cells = some (cells', ps) →
      cells'.meta.lookups = cells.meta.lookups ∧
      cells'.meta.shuffles = cells.meta.shuffles ∧
      ∀ p ∈ ps, p.1.contains_simple_selector = false ∧
        p.2.contains_simple_selector = false := by
  intro tm
  induction tm with
  | nil =>
      intro cells cells' ps h
      simp only [lookup_map_pairs, Option.some.injEq, Prod.mk.injEq] at h
      obtain ⟨rfl, rfl⟩ := h
      exact ⟨rfl, rfl, by simp⟩
  | cons pair rest ih =>
      intro cells cells' ps h
      obtain ⟨input, table⟩ := pair
      simp only [lookup_map_pairs] at h
      split at h
      · exact absurd h (by simp)
      · rename_i hinput
        split at h
        · exact absurd h (by simp)
        · rename_i input' cells₁ heqI
          split at h
          · exact absurd h (by simp)
          · rename_i table' cells₂ heqT
            split at h
            · exact absurd h (by simp)
            · rename_i cells₃ ps' heqR
              simp only [Option.some.injEq, Prod.mk.injEq] at h
              obtain ⟨rfl, rfl⟩ := h
              have hvc := vc_query_fixed_spec cells table Rotation.cur
              have hI := query_cells_preserves _ _ _ _ heqI
              have hT := query_cells_preserves _ _ _ _ heqT
              have hR := ih _ _ _ heqR
              have hinput' : input.contains_simple_selector = false := by
                simpa using hinput
              refine ⟨?_, ?_, ?_⟩
              · rw [hR.1, hT.2.1, hI.2.1, hvc.1]
              · rw [hR.2.1, hT.2.2, hI.2.2, hvc.2.1]
              · intro p hp
                rcases List.mem_cons.mp hp with rfl | hp
                · exact ⟨hI.1.trans hinput', hT.1.trans hvc.2.2⟩
                · exact hR.2.2 p hp

lemma lookup_any_map_pairs_spec {F : Type} :
    ∀ (tm : List (Expression F × Expression F)) (cells cells' : VirtualCells F)
      (ps : List (Expression F × Expression F)),
      lookup_any_map_pairs tm cells = some (cells', ps) →
      cells'.meta.lookups = cells.meta.lookups ∧
      cells'.meta.shuffles = cells.meta.shuffles ∧
      ∀ p ∈ ps, p.1.contains_simple_selector = false ∧
        p.2.contains_simple_selector = false := by
  intro tm
  induction tm with
  | nil =>
      intro cells cells' ps h
      simp only [lookup_any_map_pairs, Option.some.injEq, Prod.mk.injEq] at h
      obtain ⟨rfl, rfl⟩ := h
      exact ⟨rfl, rfl, by simp⟩
  | cons pair rest ih =>
      intro cells cells' ps h
      obtain ⟨input, table⟩ := pair
      simp only [lookup_any_map_pairs] at h
      split at h
      · exact absurd h (by simp)
      · rename_i hinput
        split at h
        · exact absurd h (by simp)
        · rename_i htable
          split at h
          · exact absurd h (by simp)
          · rename_i input' cells₁ heqI
            split at h
            · exact absurd h (by simp)
            · rename_i table' cells₂ heqT
              split at h
              · exact absurd h (by simp)
              · rename_i cells₃ ps' heqR
                simp only [Option.some.injEq, Prod.mk.injEq] at h
                obtain ⟨rfl, rfl⟩ := h
                have hI := query_cells_preserves _ _ _ _ heqI
                have hT := query_cells_preserves _ _ _ _ heqT
                have hR := ih _ _ _ heqR
                have hinput' : input.contains_simple_selector = false := by
                  simpa using hinput
                have htable' : table.contains_simple_selector = false := by
                  simpa using htable
                refine ⟨?_, ?_, ?_⟩
                · rw [hR.1, hT.2.1, hI.2.1]
                · rw [hR.2.1, hT.2.2, hI.2.2]
                · intro p hp
                  rcases List.mem_cons.mp hp with rfl | hp
                  · exact ⟨hI.1.trans hinput', hT.1.trans htable'⟩
                  · exact hR.2.2 p hp

lemma shuffle_map_pairs_frame {F : Type} :
    ∀ (sm : List (Expression F × Expression F)) (cells cells' : VirtualCells F)
      (ps : List (Expression F × Expression F)),
      shuffle_map_pairs sm cells = some (cells', ps) →
      cells'.meta.lookups = cells.meta.lookups ∧
      cells'.meta.shuffles = cells.meta.shuffles := by
  intro sm
  induction sm with
  | nil =>
      intro cells cells' ps h
      simp only [shuffle_map_pairs, Option.some.injEq, Prod.mk.injEq] at h
      obtain ⟨rfl, rfl⟩ := h
      exact ⟨rfl, rfl⟩
  | cons pair rest ih =>
      intro cells cells' ps h
      obtain ⟨input, table⟩ := pair
      simp only [shuffle_map_pairs] at h
      split at h
      · exact absurd h (by simp)
      · rename_i input' cells₁ heqI
        split at h
        · exact absurd h (by simp)
        · rename_i table' cells₂ heqT
          split at h
          · exact absurd h (by simp)
          · rename_i cells₃ ps' heqR
            simp only [Option.some.injEq, Prod.mk.injEq] at h
            obtain ⟨rfl, rfl⟩ := h
            have hI := query_cells_preserves _ _ _ _ heqI
            have hT := query_cells_preserves _ _ _ _ heqT
            have hR := ih _ _ _ heqR
            exact ⟨by rw [hR.1, hT.2.1, hI.2.1], by rw [hR.2, hT.2.2, hI.2.2]⟩

lemma all_simple_free_of_pairs {F : Type} (n : String)
    (tm : List (Expression F × Expression F))
    (h : ∀ p ∈ tm, p.1.contains_simple_selector = false ∧
      p.2.contains_simple_selector = false) :
    (lookup.Argument.new n tm).simple_free = true := by
  simp only [lookup.Argument.simple_free, lookup.Argument.new, Bool.and_eq_true,
    List.all_eq_true, List.mem_map]
  constructor
  · rintro e ⟨p, hp, rfl⟩
    simp [(h p hp).1]
  · rintro e ⟨p, hp, rfl⟩
    simp [(h p hp).2]

lemma applyCsOp_preserves_lookups_free {F : Type} (cs cs' : ConstraintSystem F)
    (op : CsOp F) (h : applyCsOp cs op = some cs')
    (hfree : cs.lookups_simple_free = true) : cs'.lookups_simple_free = true := by
  cases op with
  | lookupOp n m =>
      simp only [applyCsOp, Option.map_eq_some'] at h
      obtain ⟨⟨cs₁, i⟩, hl, rfl⟩ := h
      unfold ConstraintSystem.lookup at hl
      cases heq : lookup_map_pairs m (VirtualCells.new cs) with
      | none => rw [heq] at hl; exact absurd hl (by simp)
      | some pr =>
          obtain ⟨cells, tm⟩ := pr
          rw [heq] at hl
          simp only [Option.some.injEq, Prod.mk.injEq] at hl
          obtain ⟨rfl, -⟩ := hl
          have hs := lookup_map_pairs_spec _ _ _ _ heq
          simp only [ConstraintSystem.lookups_simple_free, List.all_append,
            Bool.and_eq_true] at hfree ⊢
          refine ⟨?_, ?_⟩
          · rw [hs.1]; exact hfree
          · simpa using all_simple_free_of_pairs n tm hs.2.2
  | lookupAnyOp n m =>
      simp only [applyCsOp, Option.map_eq_some'] at h
      obtain ⟨⟨cs₁, i⟩, hl, rfl⟩ := h
      unfold ConstraintSystem.lookup_any at hl
      cases heq : lookup_any_map_pairs m (VirtualCells.new cs) with
      | none => rw [heq] at hl; exact absurd hl (by simp)
      | some pr =>
          obtain ⟨cells, tm⟩ := pr
          rw [heq] at hl
          simp only [Option.some.injEq, Prod.mk.injEq] at hl
          obtain ⟨rfl, -⟩ := hl
          have hs := lookup_any_map_pairs_spec _ _ _ _ heq
          simp only [ConstraintSystem.lookups_simple_free, List.all_append,
            Bool.and_eq_true] at hfree ⊢
          refine ⟨?_, ?_⟩
          · rw [hs.1]; exact hfree
          · simpa using all_simple_free_of_pairs n tm hs.2.2
  | shuffleOp n m =>
      simp only [applyCsOp, Option.map_eq_some'] at h
      obtain ⟨⟨cs₁, i⟩, hl, rfl⟩ := h
      unfold ConstraintSystem.shuffle at hl
      cases heq : shuffle_map_pairs m (VirtualCells.new cs) with
      | none => rw [heq] at hl; exact absurd hl (by simp)
      | some pr =>
          obtain ⟨cells, sm⟩ := pr
          rw [heq] at hl
          simp only [Option.some.injEq, Prod.mk.injEq] at hl
          obtain ⟨rfl, -⟩ := hl
          have hs := shuffle_map_pairs_frame _ _ _ _ heq
          simpa only [ConstraintSystem.lookups_simple_free, hs.1] using hfree

/-- C1 (amended): `lookup` and `lookup_any` reject (panic on) any supplied
input — and, for `lookup_any`, table — expression containing a simple
selector, so after any successful sequence of `lookup`/`lookup_any`/`shuffle`
calls every expression stored in `cs.lookups` is free of simple selectors.
`shuffle` performs no such check, so no corresponding guarantee holds for
`cs.shuffles`. -/
theorem lookups_simple_selector_free_invariant {F : Type} (ops : List (CsOp F))
    (cs cs' : ConstraintSystem F)
    (hfree : cs.lookups_simple_free = true)
    (hrun : runCsOps cs ops = some cs') :
    cs'.lookups_simple_free = true := by
  induction ops generalizing cs with
  | nil =>
      simp only [runCsOps, Option.some.injEq] at hrun
      subst hrun
      exact hfree
  | cons op rest ih =>
      simp only [runCsOps] at hrun
      cases heq : applyCsOp cs op with
      | none => rw [heq] at hrun; exact absurd hrun (by simp)
      | some cs₁ =>
          rw [heq] at hrun
          exact ih cs₁ (applyCsOp_preserves_lookups_free cs cs₁ op heq hfree) hrun

/-- The result of running a `shuffle` call whose input expression is a simple
selector against the empty constraint system. -/
def csShufCex : Option (ConstraintSystem Int) :=
  runCsOps (ConstraintSystem.empty Int)
    [CsOp.shuffleOp "s" [(.Selector ⟨0, true⟩, .Constant 0)]]

/-- C1 counterexample: contrary to the claim, `shuffle` does not reject simple
selectors: a shuffle call whose input expression is a simple selector
succeeds (no panic), and the resulting system stores a shuffle expression
containing a simple selector. -/
theorem shuffle_admits_simple_selector_cex :
    csShufCex.map ConstraintSystem.shuffles_simple_free = some false := by decide

/-- The result of a `lookup_any` call with constant expressions against the
empty constraint system. -/
def csLookupW : ConstraintSystem Int :=
  { ConstraintSystem.empty Int with
      lookups := [{ name := "l", input_expressions := [.Constant 1],
                    table_expressions := [.Constant 1] }] }

/-- C1 witness: running a `lookup_any` call with constant expressions from
the empty system succeeds and every stored lookup expression is free of
simple selectors. -/
theorem lookups_simple_selector_free_invariant_witness :
    csLookupW.lookups_simple_free = true :=
  lookups_simple_selector_free_invariant
    [CsOp.lookupAnyOp "l" [(.Constant 1, .Constant 1)]]
    (ConstraintSystem.empty Int) csLookupW (by decide) (by decide)

/-- The inner `replace_selectors` helper of
`ConstraintSystem::replace_selectors_with_fixed`: substitute each selector
leaf by its replacement expression.  With `must_be_nonsimple` the source
asserts the selector is not simple (panic, here `none`); out-of-range
indexing of `selector_replacements` is likewise a panic; the rebuilt `Sum`
and `Product` nodes use the panicking `+`/`*` operators. -/
def replace_selectors {F : Type} (selector_replacements : List (Expression F))
    (must_be_nonsimple : Bool) : Expression F → Option (Expression F)
  | .Constant c => some (.Constant c)
  | .Selector selector =>
      if must_be_nonsimple && selector.is_simple then none
      else selector_replacements.get? selector.index
  | .Fixed q => some (.Fixed q)
  | .Advice q => some (.Advice q)
  | .Instance q => some (.Instance q)
  | .Challenge c => some (.Challenge c)
  | .Negated a =>
      match replace_selectors selector_replacements must_be_nonsimple a with
      | none => none
      | some a' => some (.Negated a')
  | .Sum a b =>
      match replace_selectors selector_replacements must_be_nonsimple a with
      | none => none
      | some a' =>
          match replace_selectors selector_replacements must_be_nonsimple b with
          | none => none
          | some b' => a'.add b'
  | .Product a b =>
      match replace_selectors selector_replacements must_be_nonsimple a with
      | none => none
      | some a' =>
          match replace_selectors selector_replacements must_be_nonsimple b with
          | none => none
          | some b' => a'.mul b'
  | .Scaled a f =>
      match replace_selectors selector_replacements must_be_nonsimple a with
      | none => none
      | some a' => some (a'.mulScalar f)

namespace ConstraintSystem

variable {F : Type}

/-- `ConstraintSystem::replace_selectors_with_fixed`: substitute the selector
replacements into every gate polynomial, and (asserting no simple selector
survives there) into every lookup and shuffle expression. -/
def replace_selectors_with_fixed (cs : ConstraintSystem F)
    (sr : List (Expression F)) : Option (ConstraintSystem F) :=
  match cs.gates.mapM (fun g =>
      (g.polys.mapM (replace_selectors sr false)).map (fun polys => { g with polys })) with
  | none => none
  | some gates =>
      match cs.lookups.mapM (fun l =>
          match l.input_expressions.mapM (replace_selectors sr true) with
          | none => none
          | some ie =>
              (l.table_expressions.mapM (replace_selectors sr true)).map
                (fun te => { l with input_expressions := ie, table_expressions := te })) with
      | none => none
      | some lookups =>
          match cs.shuffles.mapM (fun s =>
              match s.input_expressions.mapM (replace_selectors sr true) with
              | none => none
              | some ie =>
                  (s.shuffle_expressions.mapM (replace_selectors sr true)).map
                    (fun se =>
                      { s with input_expressions := ie, shuffle_expressions := se })) with
          | none => none
          | some shuffles => some { cs with gates, lookups, shuffles }

end ConstraintSystem

/-- The per-selector body of the fold inside
`ConstraintSystem::directly_convert_selectors_to_fixed`: turn the activation
vector into a 0/1 polynomial, allocate a fresh fixed column, intern its query
at the current rotation and build the replacement fixed-query expression. -/
def dc_step {F : Type} [Zero F] [One F]
    (st : ConstraintSystem F × List (List F) × List (Expression F))
    (selector : List Bool) :
    ConstraintSystem F × List (List F) × List (Expression F) :=
  let poly := selector.map (fun b => if b then (1 : F) else 0)
  let p := st.1.fixed_column
  let q := p.1.query_fixed_index p.2 Rotation.cur
  let expr : Expression F :=
    .Fixed { index := some q.2, column_index := p.2, rotation := Rotation.cur }
  (q.1, st.2.1 ++ [poly], st.2.2 ++ [expr])

namespace ConstraintSystem

variable {F : Type}

/-- `ConstraintSystem::directly_convert_selectors_to_fixed`: assert (panic,
here `none`) that exactly `num_selectors` activation vectors are supplied;
convert each selector into its own fresh fixed column with 0/1 activations,
substitute the replacements everywhere, and reset `num_selectors` to 0. -/
def dc_finish (st : ConstraintSystem F × List (List F) × List (Expression F)) :
    Option (ConstraintSystem F × List (List F)) :=
  match st.1.replace_selectors_with_fixed st.2.2 with
  | none => none
  | some cs' => some ({ cs' with num_selectors := 0 }, st.2.1)

/-- `ConstraintSystem::directly_convert_selectors_to_fixed` (continued):
assert the count, run the per-selector fold, substitute the replacements
(`dc_finish`) and reset `num_selectors`. -/
def directly_convert_selectors_to_fixed [Zero F] [One F] (cs : ConstraintSystem F)
    (selectors : List (List Bool)) : Option (ConstraintSystem F × List (List F)) :=
  if selectors.length = cs.num_selectors then
    dc_finish (selectors.foldl dc_step (cs, [], []))
  else none

/-- `ConstraintSystem::compress_selectors`: assert (panic, here `none`) that
exactly `num_selectors` activation vectors are supplied.  The body after the
assert — the per-selector gate-degree computation, the call into the missing
`compress_selectors::process` module and the replacement substitution — is
abstracted as the parameter `rest`; the claims below only concern the leading
assert, which runs first. -/
def compress_selectors
    (rest : ConstraintSystem F → List (List Bool) → Option (ConstraintSystem F × List (List F)))
    (cs : ConstraintSystem F) (selectors : List (List Bool)) :
    Option (ConstraintSystem F × List (List F)) :=
  if selectors.length = cs.num_selectors then rest cs selectors else none

end ConstraintSystem

lemma query_fixed_index_counts_frame {F : Type} (cs : ConstraintSystem F) (c : Nat)
    (at_ : Rotation) :
    (cs.query_fixed_index c at_).1.num_fixed_columns = cs.num_fixed_columns ∧
    (cs.query_fixed_index c at_).1.num_selectors = cs.num_selectors := by
  unfold ConstraintSystem.query_fixed_index
  cases find_query_index cs.fixed_queries (c, at_) <;> simp

lemma dc_fold_spec {F : Type} [Zero F] [One F] :
    ∀ (selectors : List (List Bool))
      (st : ConstraintSystem F × List (List F) × List (Expression F)),
      (selectors.foldl dc_step st).1.num_fixed_columns
        = st.1.num_fixed_columns + selectors.length ∧
      (selectors.foldl dc_step st).1.num_selectors = st.1.num_selectors ∧
      (selectors.foldl dc_step st).2.1
        = st.2.1 ++ selectors.map (fun s => s.map (fun b => if b then (1 : F) else 0)) := by
  intro selectors
  induction selectors with
  | nil => intro st; simp
  | cons x xs ih =>
      intro st
      rw [List.foldl_cons]
      have hstep₁ : (dc_step st x).1.num_fixed_columns = st.1.num_fixed_columns + 1 := by
        simp only [dc_step]
        rw [(query_fixed_index_counts_frame _ _ _).1]
        rfl
      have hstep₂ : (dc_step st x).1.num_selectors = st.1.num_selectors := by
        simp only [dc_step]
        rw [(query_fixed_index_counts_frame _ _ _).2]
        rfl
      have hstep₃ : (dc_step st x).2.1
          = st.2.1 ++ [x.map (fun b => if b then (1 : F) else 0)] := rfl
      have h := ih (dc_step st x)
      refine ⟨?_, ?_, ?_⟩
      · rw [h.1, hstep₁]
        simp [Nat.add_assoc, Nat.add_comm 1]
      · rw [h.2.1, hstep₂]
      · rw [h.2.2, hstep₃]
        simp

lemma replace_selectors_with_fixed_frame {F : Type} (cs cs' : ConstraintSystem F)
    (sr : List (Expression F)) (h : cs.replace_selectors_with_fixed sr = some cs') :
    cs'.num_fixed_columns = cs.num_fixed_columns ∧
    cs'.num_selectors = cs.num_selectors := by
  unfold ConstraintSystem.replace_selectors_with_fixed at h
  split at h
  · exact absurd h (by simp)
  · split at h
    · exact absurd h (by simp)
    · split at h
      · exact absurd h (by simp)
      · simp only [Option.some.injEq] at h
        subst h
        exact ⟨rfl, rfl⟩

/-- C10: `compress_selectors` and `directly_convert_selectors_to_fixed` panic
unless the number of supplied activation vectors equals `num_selectors`;
under that precondition a successful `directly_convert_selectors_to_fixed`
allocates one fresh fixed column per selector, maps each activation vector to
the 0/1 field polynomial of the same length, and resets `num_selectors` to
0. -/
theorem selector_conversion_spec {F : Type} [Zero F] [One F] :
    (∀ (rest : ConstraintSystem F → List (List Bool) →
          Option (ConstraintSystem F × List (List F)))
       (cs : ConstraintSystem F) (selectors : List (List Bool)),
      selectors.length ≠ cs.num_selectors →
      ConstraintSystem.compress_selectors rest cs selectors = none) ∧
    (∀ (cs : ConstraintSystem F) (selectors : List (List Bool)),
      selectors.length ≠ cs.num_selectors →
      cs.directly_convert_selectors_to_fixed selectors = none) ∧
    (∀ (cs cs' : ConstraintSystem F) (selectors : List (List Bool))
       (polys : List (List F)),
      cs.directly_convert_selectors_to_fixed selectors = some (cs', polys) →
      cs'.num_fixed_columns = cs.num_fixed_columns + selectors.length ∧
      polys = selectors.map (fun s => s.map (fun b => if b then (1 : F) else 0)) ∧
      cs'.num_selectors = 0) := by
  refine ⟨?_, ?_, ?_⟩
  · intro rest cs selectors hne
    simp [ConstraintSystem.compress_selectors, hne]
  · intro cs selectors hne
    simp [ConstraintSystem.directly_convert_selectors_to_fixed, hne]
  · intro cs cs' selectors polys h
    unfold ConstraintSystem.directly_convert_selectors_to_fixed at h
    split at h
    · unfold ConstraintSystem.dc_finish at h
      split at h
      · exact absurd h (by simp)
      · rename_i cs₁ heq
        simp only [Option.some.injEq, Prod.mk.injEq] at h
        obtain ⟨rfl, rfl⟩ := h
        have hfold := dc_fold_spec selectors (cs, ([], []))
        have hframe := replace_selectors_with_fixed_frame _ _ _ heq
        refine ⟨?_, ?_, rfl⟩
        · show cs₁.num_fixed_columns = _
          rw [hframe.1, hfold.1]
        · simpa using hfold.2.2
    · exact absurd h (by simp)

/-- A system with a single allocated selector, for exercising the selector
conversion. -/
def csSel : ConstraintSystem Int :=
  { ConstraintSystem.empty Int with num_selectors := 1 }

/-- `csSel` after `directly_convert_selectors_to_fixed [[true, false]]`. -/
def csSelX : ConstraintSystem Int :=
  { ConstraintSystem.empty Int with
      num_fixed_columns := 1, fixed_queries := [(0, Rotation.cur)] }

/-- C10 witness: both conversions reject a mismatched number of activation
vectors on `csSel`, and converting `[[true, false]]` allocates one fixed
column, produces the 0/1 polynomial `[1, 0]` and resets `num_selectors`. -/
theorem selector_conversion_spec_witness :
    (ConstraintSystem.compress_selectors (fun cs _ => some (cs, [])) csSel [] = none) ∧
    (csSel.directly_convert_selectors_to_fixed [] = none) ∧
    (csSelX.num_fixed_columns = csSel.num_fixed_columns + 1 ∧
     ([[(1 : Int), 0]]
        = [[true, false]].map (fun s => s.map (fun b => if b then (1 : Int) else 0))) ∧
     csSelX.num_selectors = 0) := by
  refine ⟨?_, ?_, ?_⟩
  · exact selector_conversion_spec.1 _ csSel [] (by decide)
  · exact selector_conversion_spec.2.1 csSel [] (by decide)
  · have h : csSel.directly_convert_selectors_to_fixed [[true, false]]
        = some (csSelX, [[1, 0]]) := by decide
    simpa using selector_conversion_spec.2.2 csSel csSelX [[true, false]] [[1, 0]] h

/-- Modelled from the spec: the error taxonomy relevant to the floor-planner
claims (`plonk::Error` is defined outside the sources here);
`NotEnoughColumnsForConstants` is the constant-wiring failure, `Other`
stands for any backend- or circuit-originated error. -/
inductive Error where
  | NotEnoughColumnsForConstants
  | TableError
  | Other (code : Nat)
deriving DecidableEq, Repr

/-- Modelled from the spec: a `RegionShape` records a region index, the set
of columns touched and `row_count = 1 + max written row offset`
(`RegionShape` lives in the layouter module, outside the sources here). -/
structure RegionShape where
  region_index : Nat
  columns : List ColumnAny
  row_count : Nat
deriving DecidableEq, Repr

/-- `RegionShape::new`: the fresh, empty shape for a region index. -/
def RegionShape.new (region_index : Nat) : RegionShape :=
  { region_index, columns := [], row_count := 0 }

/-- One call into the backend `Assignment` sink as emitted by the V1 planner
(annotation closures dropped; values evaluated). -/
inductive BackendOp (F : Type) where
  | enter_region (name : String)
  | exit_region
  | enable_selector (selector : Selector) (row : Nat)
  | assign_advice (column : ColumnAdvice) (row : Nat) (value : F)
  | assign_fixed (column : Nat) (row : Nat) (value : F)
  | copy (left_column : ColumnAny) (left_row : Nat)
         (right_column : ColumnAny) (right_row : Nat)
  | fill_from_row (column : Nat) (row : Nat) (value : F)
deriving DecidableEq, Repr

/-- `MeasurementPass::assign_region`: allocate the next region index, run the
user closure on a fresh shape (the closure is abstracted by the final shape
and result it produces), and push the shape only when the closure returns
`Ok` — the `?` in the source propagates an error before the push. -/
def MeasurementPass.assign_region (regions : List RegionShape)
    (assignment : RegionShape → Except Error (Unit × RegionShape)) :
    Except Error (Unit × List RegionShape) :=
  let region_index := regions.length
  match assignment (RegionShape.new region_index) with
  | .error e => .error e
  | .ok (result, shape) => .ok (result, regions ++ [shape])

/-- The mutable state of `AssignmentPass` as seen by these claims: the region
counter and the trace of backend calls made so far. -/
structure AssignmentPassState (F : Type) where
  region_index : Nat
  trace : List (BackendOp F)
deriving DecidableEq, Repr

/-- `AssignmentPass::assign_region`: read and increment the region counter
(before anything else), emit `enter_region`, run the user closure (abstracted
by the backend calls it makes and its result, as a function of the region
index), and emit `exit_region` only when the closure returns `Ok` — the `?`
in the source propagates an error before `exit_region`. -/
def AssignmentPass.assign_region {F : Type} (st : AssignmentPassState F) (name : String)
    (assignment : Nat → List (BackendOp F) × Except Error Unit) :
    AssignmentPassState F × Except Error Unit :=
  let region_index := st.region_index
  let st := { st with region_index := st.region_index + 1 }
  let tr := st.trace ++ [BackendOp.enter_region name]
  let r := assignment region_index
  match r.2 with
  | .error e => ({ st with trace := tr ++ r.1 }, .error e)
  | .ok a => ({ st with trace := tr ++ r.1 ++ [BackendOp.exit_region] }, .ok a)

/-- `AssignmentPass::assign_table`: emit `enter_region`, run the user closure
(abstracted by the backend calls it makes, its result, and the
`default_and_assigned` map of the `SimpleTableLayouter`: per table column its
default value and assigned flags), and only on `Ok` emit `exit_region`, check
the table shape with `compute_table_lengths` (a parameter: its module is not
part of the sources here), record the used table columns and fill every
column from `first_unused` with its default.  The `default_val.unwrap()` of
the source is the only `none` case. -/
def AssignmentPass.assign_table {F : Type}
    (compute_table_lengths : List (Nat × Option F × List Bool) → Except Error Nat)
    (st : AssignmentPassState F) (table_columns : List Nat) (name : String)
    (assignment : List (BackendOp F) × Except Error Unit × List (Nat × Option F × List Bool)) :
    Option ((AssignmentPassState F × List Nat) × Except Error Unit) :=
  let ops := assignment.1
  let result := assignment.2.1
  let default_and_assigned := assignment.2.2
  let tr := st.trace ++ [BackendOp.enter_region name] ++ ops
  match result with
  | .error e => some (({ st with trace := tr }, table_columns), .error e)
  | .ok _ =>
      let tr := tr ++ [BackendOp.exit_region]
      match compute_table_lengths default_and_assigned with
      | .error e => some (({ st with trace := tr }, table_columns), .error e)
      | .ok first_unused =>
          let table_columns := table_columns ++ default_and_assigned.map (fun c => c.1)
          match default_and_assigned.mapM
              (fun c => c.2.1.map (fun v => BackendOp.fill_from_row c.1 first_unused v)) with
          | none => none
          | some fills =>
              some (({ st with trace := tr ++ fills }, table_columns), .ok ())

/-- Whether an `Except` value is `Ok`. -/
def exceptIsOk {ε α : Type} : Except ε α → Bool
  | .ok _ => true
  | .error _ => false

/-- For each measurement-pass `assign_region` call of a run, the position in
`MeasurementPass::regions` at which that call recorded its shape (`none` when
the closure errored and nothing was recorded; a circuit that swallows the
error continues with the pass state unchanged). -/
def measurement_positions (regions : List RegionShape) :
    List (RegionShape → Except Error (Unit × RegionShape)) → List (Option Nat)
  | [] => []
  | f :: fs =>
      match MeasurementPass.assign_region regions f with
      | .error _ => none :: measurement_positions regions fs
      | .ok (_, regions') => some regions.length :: measurement_positions regions' fs

lemma measurement_positions_all_ok
    (fs : List (RegionShape → Except Error (Unit × RegionShape))) :
    ∀ regions, (∀ f ∈ fs, ∀ shape, exceptIsOk (f shape) = true) →
      measurement_positions regions fs
        = (List.range' regions.length fs.length).map some := by
  induction fs with
  | nil => intro regions _; rfl
  | cons f fs ih =>
      intro regions h
      have hok := h f (by simp) (RegionShape.new regions.length)
      cases hres : f (RegionShape.new regions.length) with
      | error e => rw [hres] at hok; simp [exceptIsOk] at hok
      | ok pr =>
          obtain ⟨r, shape⟩ := pr
          simp only [measurement_positions, MeasurementPass.assign_region, hres]
          rw [ih (regions ++ [shape]) (fun g hg s => h g (by simp [hg]) s)]
          simp [List.range'_succ]

/-- C2 (amended): in the V1 assignment pass, `assign_region` increments the
region counter before running the user closure, so the counter advances even
when the closure returns an error.  The measurement pass, however, records a
`RegionShape` only when its closure succeeds (the error propagates before the
push), so the n-th `assign_region` call of pass 2 refers to the n-th recorded
shape exactly when every measurement closure succeeds. -/
theorem assign_region_counter_and_parity {F : Type} :
    (∀ (st : AssignmentPassState F) (name : String)
       (f : Nat → List (BackendOp F) × Except Error Unit),
      (AssignmentPass.assign_region st name f).1.region_index = st.region_index + 1) ∧
    (∀ (regions : List RegionShape)
       (f : RegionShape → Except Error (Unit × RegionShape)) (e : Error),
      f (RegionShape.new regions.length) = .error e →
      MeasurementPass.assign_region regions f = .error e) ∧
    (∀ (fs : List (RegionShape → Except Error (Unit × RegionShape))),
      (∀ f ∈ fs, ∀ shape, exceptIsOk (f shape) = true) →
      measurement_positions [] fs = (List.range fs.length).map some) := by
  refine ⟨?_, ?_, ?_⟩
  · intro st name f
    simp only [AssignmentPass.assign_region]
    split <;> rfl
  · intro regions f e hf
    simp [MeasurementPass.assign_region, hf]
  · intro fs h
    rw [measurement_positions_all_ok fs [] h, List.range_eq_range']
    rfl

/-- C2 counterexample: the claimed pass parity fails on error paths.  With a
first measurement closure that errors (and a circuit that swallows the error
and continues), the first call records no shape — the shape recorded by the
second call sits at position 0 — while the assignment pass's first call would
consume region index 0; so it is not true that the n-th call records the n-th
shape on every run. -/
theorem measurement_error_path_parity_cex :
    ¬ (∀ (fs : List (RegionShape → Except Error (Unit × RegionShape))) (n : Nat),
        n < fs.length →
        (measurement_positions [] fs).get? n = some (some n)) := by
  intro h
  have h0 := h [fun _ => Except.error (Error.Other 0), fun s => Except.ok ((), s)]
    0 (by simp)
  simp [measurement_positions, MeasurementPass.assign_region] at h0

/-- C2 witness: a single always-succeeding measurement closure records its
shape at position 0, and an erroring measurement closure propagates its
error. -/
theorem assign_region_counter_and_parity_witness :
    (MeasurementPass.assign_region [] (fun _ => Except.error (Error.Other 0))
      = Except.error (Error.Other 0)) ∧
    (measurement_positions [] [fun s => Except.ok ((), s)] = [some 0]) := by
  constructor
  · exact (assign_region_counter_and_parity (F := Int)).2.1 []
      (fun _ => Except.error (Error.Other 0)) (Error.Other 0) rfl
  · have h := (assign_region_counter_and_parity (F := Int)).2.2
      [fun s => Except.ok ((), s)] ?_
    · simpa using h
    · intro f hf shape
      simp only [List.mem_singleton] at hf
      subst hf
      rfl

/-- C9: when the user closure of the assignment pass's `assign_region` or
`assign_table` returns an error, the planner has already emitted
`enter_region` but never the matching `exit_region`: the resulting trace
extends the old one by exactly `enter_region` followed by the closure's own
backend calls, the error is propagated, and (for `assign_table`) the
table-column list is untouched and no `fill_from_row` call is emitted. -/
theorem error_path_leaves_region_open {F : Type}
    (st : AssignmentPassState F) (name : String) (ops : List (BackendOp F))
    (e : Error) (f : Nat → List (BackendOp F) × Except Error Unit)
    (hf : f st.region_index = (ops, .error e))
    (ctl : List (Nat × Option F × List Bool) → Except Error Nat)
    (table_columns : List Nat) (daa : List (Nat × Option F × List Bool)) :
    (AssignmentPass.assign_region st name f
      = ({ region_index := st.region_index + 1,
           trace := st.trace ++ [BackendOp.enter_region name] ++ ops },
         .error e)) ∧
    (AssignmentPass.assign_table ctl st table_columns name (ops, .error e, daa)
      = some
          (({ st with trace := st.trace ++ [BackendOp.enter_region name] ++ ops },
            table_columns),
           .error e)) := by
  constructor
  · simp only [AssignmentPass.assign_region, hf]
  · rfl

/-- C9 witness: with a closure that emits one advice assignment and errors,
`assign_region` leaves the backend inside the open region (no `exit_region`)
and propagates the error, and `assign_table` does the same with no
`fill_from_row` call. -/
theorem error_path_leaves_region_open_witness :
    (AssignmentPass.assign_region
        ({ region_index := 0, trace := [] } : AssignmentPassState Int) "r"
        (fun _ => ([BackendOp.assign_advice ⟨0, 0⟩ 0 7], Except.error (Error.Other 1)))
      = ({ region_index := 1,
           trace := [BackendOp.enter_region "r", BackendOp.assign_advice ⟨0, 0⟩ 0 7] },
         Except.error (Error.Other 1))) ∧
    (AssignmentPass.assign_table (fun _ => Except.ok 0)
        ({ region_index := 0, trace := [] } : AssignmentPassState Int) [] "r"
        ([BackendOp.assign_fixed 0 0 7], Except.error (Error.Other 1), [(0, some 7, [true])])
      = some
          (({ region_index := 0,
              trace := [BackendOp.enter_region "r", BackendOp.assign_fixed 0 0 7] }, []),
           Except.error (Error.Other 1))) := by
  have h := error_path_leaves_region_open
    ({ region_index := 0, trace := [] } : AssignmentPassState Int) "r"
    [BackendOp.assign_advice ⟨0, 0⟩ 0 7] (Error.Other 1)
    (fun _ => ([BackendOp.assign_advice ⟨0, 0⟩ 0 7], Except.error (Error.Other 1))) rfl
    (fun _ => Except.ok 0) [] [(0, some 7, [true])]
  have h2 := error_path_leaves_region_open
    ({ region_index := 0, trace := [] } : AssignmentPassState Int) "r"
    [BackendOp.assign_fixed 0 0 7] (Error.Other 1)
    (fun _ => ([BackendOp.assign_fixed 0 0 7], Except.error (Error.Other 1))) rfl
    (fun _ => Except.ok 0) [] [(0, some 7, [true])]
  exact ⟨h.1, h2.2⟩

/-- A `Cell`: a grid slot identified by region index, row offset within the
region, and column. -/
structure Cell where
  region_index : Nat
  row_offset : Nat
  column : ColumnAny
deriving DecidableEq, Repr

/-- The backend calls emitted by the constant-wiring loop of
`V1::synthesize` for a list of `(free position, recorded constant)` pairs:
for each pair, `assign_fixed` of the constant at the free position followed
by an equality `copy` between that fixed cell and the advice cell (whose
absolute row is the region start plus the offset; the source's unchecked
`plan.regions[region]` indexing is modelled by `getD 0`). -/
def constant_wiring_ops {F : Type} (regions : List Nat) :
    List ((Nat × Nat) × F × Cell) → List (BackendOp F)
  | [] => []
  | ((fixed_column, fixed_row), value, advice) :: rest =>
      BackendOp.assign_fixed fixed_column fixed_row value ::
      BackendOp.copy ⟨fixed_column, .Fixed⟩ fixed_row advice.column
        (regions.getD advice.region_index 0 + advice.row_offset) ::
      constant_wiring_ops regions rest

/-- The constant-wiring tail of `V1::synthesize` (after pass 2): if fewer
free `(fixed column, row)` positions than recorded `(constant, advice cell)`
pairs exist, return `NotEnoughColumnsForConstants` without touching the
backend; otherwise zip positions with the recorded pairs in order and emit
the fixed assignment and equality copy for each pair.  The stream of free
positions (computed by the allocator's `free_intervals`, outside the sources
here) is abstracted as the list `constant_positions`. -/
def V1_assign_constants {F : Type} (trace : List (BackendOp F))
    (constant_positions : List (Nat × Nat)) (constants : List (F × Cell))
    (regions : List Nat) : List (BackendOp F) × Except Error Unit :=
  if constant_positions.length < constants.length then
    (trace, .error .NotEnoughColumnsForConstants)
  else
    (trace ++ constant_wiring_ops regions (constant_positions.zip constants), .ok ())

lemma get_zip {α β : Type} :
    ∀ (as_ : List α) (bs : List β) (i : Nat) (ha : i < as_.length) (hb : i < bs.length),
      ∃ h : i < (as_.zip bs).length,
        (as_.zip bs).get ⟨i, h⟩ = (as_.get ⟨i, ha⟩, bs.get ⟨i, hb⟩) := by
  intro as_
  induction as_ with
  | nil => intro bs i ha; simp at ha
  | cons a as_ ih =>
      intro bs i ha hb
      cases bs with
      | nil => simp at hb
      | cons b bs =>
          cases i with
          | zero => exact ⟨by simp, rfl⟩
          | succ j =>
              obtain ⟨h, hget⟩ := ih bs j (by simpa using ha) (by simpa using hb)
              exact ⟨by simpa using Nat.succ_lt_succ h, hget⟩

lemma mem_constant_wiring_ops {F : Type} (regions : List Nat) :
    ∀ (l : List ((Nat × Nat) × F × Cell)) (p : (Nat × Nat) × F × Cell), p ∈ l →
      BackendOp.assign_fixed p.1.1 p.1.2 p.2.1 ∈ constant_wiring_ops regions l ∧
      BackendOp.copy ⟨p.1.1, .Fixed⟩ p.1.2 p.2.2.column
          (regions.getD p.2.2.region_index 0 + p.2.2.row_offset)
        ∈ constant_wiring_ops regions l := by
  intro l
  induction l with
  | nil => intro p hp; simp at hp
  | cons q rest ih =>
      intro p hp
      obtain ⟨⟨c, r⟩, v, cell⟩ := q
      rcases List.mem_cons.mp hp with rfl | hp
      · exact ⟨List.mem_cons_self _ _,
          List.mem_cons_of_mem _ (List.mem_cons_self _ _)⟩
      · have h := ih p hp
        exact ⟨List.mem_cons_of_mem _ (List.mem_cons_of_mem _ h.1),
          List.mem_cons_of_mem _ (List.mem_cons_of_mem _ h.2)⟩

/-- C3: if the free constant positions below the first unassigned row are
fewer than the recorded `(constant, advice cell)` pairs, the planner returns
`NotEnoughColumnsForConstants` and emits no fixed assignment and no copy;
otherwise it succeeds, emitting — for every recorded pair `i`, taken in
recording order and paired with the `i`-th free position — the fixed
assignment of the constant at that position and the equality copy to the
advice cell. -/
theorem v1_constant_wiring {F : Type} (trace : List (BackendOp F))
    (positions : List (Nat × Nat)) (constants : List (F × Cell)) (regions : List Nat) :
    (positions.length < constants.length →
      V1_assign_constants trace positions constants regions
        = (trace, .error .NotEnoughColumnsForConstants)) ∧
    (¬ positions.length < constants.length →
      (V1_assign_constants trace positions constants regions).2 = .ok () ∧
      (V1_assign_constants trace positions constants regions).1
        = trace ++ constant_wiring_ops regions (positions.zip constants) ∧
      ∀ (i : Nat) (hi : i < constants.length) (hp : i < positions.length),
        BackendOp.assign_fixed (positions.get ⟨i, hp⟩).1 (positions.get ⟨i, hp⟩).2
            (constants.get ⟨i, hi⟩).1
          ∈ (V1_assign_constants trace positions constants regions).1 ∧
        BackendOp.copy ⟨(positions.get ⟨i, hp⟩).1, .Fixed⟩ (positions.get ⟨i, hp⟩).2
            (constants.get ⟨i, hi⟩).2.column
            (regions.getD (constants.get ⟨i, hi⟩).2.region_index 0
              + (constants.get ⟨i, hi⟩).2.row_offset)
          ∈ (V1_assign_constants trace positions constants regions).1) := by
  constructor
  · intro hlt
    simp [V1_assign_constants, hlt]
  · intro hge
    refine ⟨by simp [V1_assign_constants, hge], by simp [V1_assign_constants, hge], ?_⟩
    intro i hi hp
    obtain ⟨hz, hget⟩ := get_zip positions constants i hp hi
    have hmem : (positions.zip constants).get ⟨i, hz⟩ ∈ positions.zip constants :=
      List.get_mem _ _ hz
    have hops := mem_constant_wiring_ops regions (positions.zip constants) _ hmem
    rw [hget] at hops
    have h1 := hops.1
    have h2 := hops.2
    constructor
    · simp only [V1_assign_constants, if_neg hge]
      exact List.mem_append_right _ h1
    · simp only [V1_assign_constants, if_neg hge]
      exact List.mem_append_right _ h2

/-- C3 witness: with one recorded constant and no free position the wiring
fails with `NotEnoughColumnsForConstants` leaving the trace unchanged; with
two free positions it succeeds and emits the fixed assignment and the copy
for the recorded pair. -/
theorem v1_constant_wiring_witness :
    (V1_assign_constants ([] : List (BackendOp Int)) []
        [(5, ⟨0, 2, ⟨0, .Advice 0⟩⟩)] [3]
      = ([], .error .NotEnoughColumnsForConstants)) ∧
    (BackendOp.assign_fixed 0 0 (5 : Int)
      ∈ (V1_assign_constants ([] : List (BackendOp Int)) [(0, 0), (0, 1)]
          [(5, ⟨0, 2, ⟨0, .Advice 0⟩⟩)] [3]).1) ∧
    (BackendOp.copy ⟨0, .Fixed⟩ 0 ⟨0, .Advice 0⟩ 5
      ∈ (V1_assign_constants ([] : List (BackendOp Int)) [(0, 0), (0, 1)]
          [(5, ⟨0, 2, ⟨0, .Advice 0⟩⟩)] [3]).1) := by
  refine ⟨?_, ?_, ?_⟩
  · exact (v1_constant_wiring ([] : List (BackendOp Int)) []
      [(5, ⟨0, 2, ⟨0, .Advice 0⟩⟩)] [3]).1 (by decide)
  · exact ((v1_constant_wiring ([] : List (BackendOp Int)) [(0, 0), (0, 1)]
      [(5, ⟨0, 2, ⟨0, .Advice 0⟩⟩)] [3]).2 (by decide)).2.2 0 (by decide) (by decide) |>.1
  · exact ((v1_constant_wiring ([] : List (BackendOp Int)) [(0, 0), (0, 1)]
      [(5, ⟨0, 2, ⟨0, .Advice 0⟩⟩)] [3]).2 (by decide)).2.2 0 (by decide) (by decide) |>.2

end Halo2
